import Mathlib

/-!
Shallow embedding of the layout-preserving PDF text-replacement engine in
`back/filler_agent/text_utils.py` (functions `sanitize_unicode_for_pdf`,
`get_string_last_char_position_pdf`, `replace_text_preserve_layout_pdf` with its
inner helpers `_replace_once` and `_get_font`), together with proofs of the
frozen specification claims about that engine.

Modelling conventions:
* PDF coordinates and font sizes are rational numbers (`ℚ`); the Python code
  uses floats but performs only order comparisons, additions, multiplications
  by constants, and min/max on them.
* A rendered page is modelled by the data the code extracts from PyMuPDF:
  the page height, the `search_for` primitive (a function from a search string
  to the list of matching rectangles, in the order the renderer reports them),
  the structured text lines of `get_text("dict")` (text blocks only - blocks of
  other types contribute no lines), and the flat glyph list produced from
  `get_text("rawdict")` via `_span_glyphs`.
* Raising a Python exception is modelled by `Except`; logging and document
  mutation are modelled by explicit lists of emitted events and edit
  operations (the document data itself is read-only during a batch; a
  redaction or text drawing is recorded as an `Edit` value).
* The mapped Unicode code points are written with `\uXXXX` escapes throughout
  so the non-breaking space stays visible.
-/

/-- A PyMuPDF rectangle: `x0,y0` top-left, `x1,y1` bottom-right. -/
structure Rect where
  x0 : ℚ
  y0 : ℚ
  x1 : ℚ
  y1 : ℚ
deriving DecidableEq, Repr, Inhabited

/-- fitz rectangle union (operator `|=`): smallest rectangle containing both. -/
def Rect.union (a b : Rect) : Rect :=
  ⟨min a.x0 b.x0, min a.y0 b.y0, max a.x1 b.x1, max a.y1 b.y1⟩

/-- fitz `Rect.intersects`: the two rectangles share a non-empty rectangle
(an empty rectangle has `x0 ≥ x1` or `y0 ≥ y1`). -/
def Rect.intersects (a b : Rect) : Bool :=
  decide (max a.x0 b.x0 < min a.x1 b.x1) && decide (max a.y0 b.y0 < min a.y1 b.y1)

/-- Python `text.replace(c, repl)` for a **one-character** pattern `c`:
every occurrence of the character is replaced, all other characters kept. -/
def replaceChar (c : Char) (repl : List Char) (t : List Char) : List Char :=
  t.flatMap (fun ch => if ch = c then repl else [ch])

/-- Table `unicode_replacements` of `sanitize_unicode_for_pdf`, in the
source's (insertion) order.  Every key is a single code point, so the Python
`str.replace` calls are one-character replacements. -/
def unicodeReplacements : List (Char × List Char) :=
  [('“', ['"']), ('”', ['"']),
   ('‘', [Char.ofNat 39]), ('’', [Char.ofNat 39]),
   ('—', ['-', '-']), ('–', ['-']),
   ('…', ['.', '.', '.']), (' ', [' '])]

/-- The eight mapped code points (the keys of `unicode_replacements`). -/
def mappedChars : List Char :=
  ['“', '”', '‘', '’', '—', '–', '…', ' ']

/-- Function `sanitize_unicode_for_pdf`: empty text is returned as is,
otherwise the eight replacements are applied in table order. -/
def sanitize_unicode_for_pdf (text : String) : String :=
  if text = "" then text
  else ⟨unicodeReplacements.foldl (fun t p => replaceChar p.1 p.2 t) text.data⟩

/-- Per-character view of the replacement table: the ASCII expansion of a
mapped code point, any other character unchanged. -/
def charMap (ch : Char) : List Char :=
  match unicodeReplacements.lookup ch with
  | some repl => repl
  | none => [ch]

/-- One text span of a structured-text line (`get_text("dict")`): the span's
text and its bounding box. -/
structure Span where
  text : String
  bbox : Rect
deriving Repr

/-- One structured-text line: its bounding box and its spans, in order. -/
structure Line where
  bbox : Rect
  spans : List Span
deriving Repr

/-- One extracted glyph, as produced from `get_text("rawdict")` spans by
`_span_glyphs`: character, bounding box, font name, size, packed color and
style flags. -/
structure Glyph where
  c : Char
  bbox : Rect
  font : String
  size : ℚ
  color : ℤ
  flags : ℤ
deriving DecidableEq, Repr, Inhabited

/-- A rendered PDF page, holding exactly the data the engine reads from
PyMuPDF: the page height, the `search_for` primitive (rectangles in the
order the renderer reports them), the structured text lines of
`get_text("dict")` (text blocks only: blocks of other types are skipped by
the code and contribute no lines here), and the flat glyph list. -/
structure Page where
  height : ℚ
  search : String → List Rect
  lines : List Line
  glyphs : List Glyph

instance : Inhabited Page :=
  ⟨{ height := 0, search := fun _ => [], lines := [], glyphs := [] }⟩

/-- A document is its list of pages. -/
structure Doc where
  pages : List Page

/-- Input-validation failures raised by the engine (`raise ValueError`). -/
inductive Err where
  | emptySearch
  | lengthMismatch
deriving DecidableEq, Repr

/-- Shared position test `position is None or global_y > position`. -/
def posOk (lastPos : Option ℚ) (y : ℚ) : Bool :=
  match lastPos with
  | none => true
  | some q => decide (q < y)

/-- Page loop of `get_string_last_char_position_pdf`: for each page in order
(offset `page_index * page.rect.height`), return `page_offset + rect.y1` of
the first search rectangle satisfying the position criterion. -/
def gslcpGo (s : String) (position : Option ℚ) : List Page → ℕ → Option ℚ
  | [], _ => none
  | page :: rest, idx =>
    let offset : ℚ := (idx : ℚ) * page.height
    match (page.search s).find? (fun r => posOk position (offset + r.y1)) with
    | some r => some (offset + r.y1)
    | none => gslcpGo s position rest (idx + 1)

/-- Function `get_string_last_char_position_pdf`: reject an empty search
string, otherwise run the page loop. -/
def get_string_last_char_position_pdf (doc : Doc) (s : String)
    (position : Option ℚ) : Except Err (Option ℚ) :=
  if s = "" then .error .emptySearch
  else .ok (gslcpGo s position doc.pages 0)

/-- All global occurrence positions `page_offset + rect.y1` of `s`, flattened
in page order, then in the order the search primitive reports rectangles. -/
def globalHitsFrom (s : String) : List Page → ℕ → List ℚ
  | [], _ => []
  | page :: rest, idx =>
    ((page.search s).map (fun r => (idx : ℚ) * page.height + r.y1)) ++
      globalHitsFrom s rest (idx + 1)

/-- All global occurrence positions of `s` in `doc`. -/
def globalHits (doc : Doc) (s : String) : List ℚ :=
  globalHitsFrom s doc.pages 0

/-- Concatenated text of a structured line (`"".join(span["text"] ...)`). -/
def lineConcat (line : Line) : String :=
  line.spans.foldl (fun a sp => a ++ sp.text) ""

/-- Contiguous-sublist test on character lists. -/
def containsSubList (needle : List Char) : List Char → Bool
  | [] => needle.isEmpty
  | h :: t => needle.isPrefixOf (h :: t) || containsSubList needle t

/-- Python substring test `needle in hay`. -/
def containsSub (needle hay : String) : Bool :=
  containsSubList needle.toList hay.toList

/-- Python prefix test `s.startswith(pre)`, on the character lists. -/
def strStartsWith (s pre : String) : Bool :=
  pre.toList.isPrefixOf s.toList

/-- Span scan of the multi-rectangle disambiguation in `_replace_once`: walk
the line's spans accumulating their text; `search_start_x` is set at the
first span for which the search string still starts with the accumulated
text extended by the span, `search_end_x` at the span where the accumulated
text first starts with the whole search string (the loop then breaks, the
length test of the source being implied by the prefix test). -/
def spanScan (search : String) : List Span → String → Option ℚ → Option ℚ →
    Option ℚ × Option ℚ
  | [], _, startX, endX => (startX, endX)
  | sp :: rest, acc, startX, endX =>
    let startX' :=
      if startX.isNone && strStartsWith search (acc ++ sp.text) then some sp.bbox.x0
      else startX
    let acc' := acc ++ sp.text
    if strStartsWith acc' search then
      if search.length ≤ acc'.length then (startX', some sp.bbox.x1)
      else spanScan search rest acc' startX' (some sp.bbox.x1)
    else spanScan search rest acc' startX' endX

/-- Line loop of the multi-rectangle disambiguation: the first structured
line whose concatenated text contains the search string, whose
`page_offset + line_rect.y1` passes the position criterion and whose span
scan produced both x-bounds yields the rectangle over those bounds and the
line's vertical extent. -/
def findLineMatch (search : String) (lastPos : Option ℚ) (offset : ℚ) :
    List Line → Option Rect
  | [] => none
  | line :: rest =>
    if containsSub search (lineConcat line) then
      if posOk lastPos (offset + line.bbox.y1) then
        match spanScan search line.spans "" none none with
        | (some sx, some ex) => some ⟨sx, line.bbox.y0, ex, line.bbox.y1⟩
        | _ => findLineMatch search lastPos offset rest
      else findLineMatch search lastPos offset rest
    else findLineMatch search lastPos offset rest

/-- Selectability of a structured line by the disambiguation scan: its
concatenated text contains the search string and the span scan yields both
x-bounds (the occurrence is aligned to span boundaries). -/
def lineHit (search : String) (line : Line) : Bool :=
  containsSub search (lineConcat line) &&
    match spanScan search line.spans "" none none with
    | (some _, some _) => true
    | _ => false

/-- Followers of a hit's first rectangle: subsequent rectangles absorbed
while their vertical centre lies within the tolerance band
`[base.y0 - 2, base.y1 + 2]` (the loop stops at the first one outside). -/
def sameHitFollowers (base : Rect) (followers : List Rect) : List Rect :=
  followers.takeWhile (fun f =>
    decide (base.y0 - 2 ≤ (f.y0 + f.y1) / 2) &&
      decide ((f.y0 + f.y1) / 2 ≤ base.y1 + 2))

/-- Union of a hit's first rectangle with its absorbed followers. -/
def sameHitUnion (base : Rect) (followers : List Rect) : Rect :=
  (sameHitFollowers base followers).foldl Rect.union base

/-- Fallback selection of `_replace_once`: the first rectangle passing the
position criterion, unioned with the followers of its hit. -/
def fallbackSelect (lastPos : Option ℚ) (offset : ℚ) : List Rect → Option Rect
  | [] => none
  | r :: rest =>
    if posOk lastPos (offset + r.y1) then some (sameHitUnion r rest)
    else fallbackSelect lastPos offset rest

/-- Rectangle selection of `_replace_once` on one page: no rectangle when the
search primitive reports none; the line-level disambiguation runs only when
it reports more than one rectangle and takes precedence; otherwise the
fallback selection is used. -/
def pageSelect (search : String) (lastPos : Option ℚ) (offset : ℚ)
    (page : Page) : Option Rect :=
  let rects := page.search search
  if rects.isEmpty then none
  else
    let fromLines :=
      if 1 < rects.length then findLineMatch search lastPos offset page.lines
      else none
    match fromLines with
    | some r => some r
    | none => fallbackSelect lastPos offset rects

/-- Page loop of the locate phase of `_replace_once`: first page (in order,
with offset `page_index * page.rect.height`) on which a rectangle is
selected. -/
def locateGo (search : String) (lastPos : Option ℚ) :
    List Page → ℕ → Option (ℕ × Rect)
  | [], _ => none
  | page :: rest, idx =>
    match pageSelect search lastPos ((idx : ℚ) * page.height) page with
    | some r => some (idx, r)
    | none => locateGo search lastPos rest (idx + 1)

/-- Locate phase of `_replace_once`: selected page index and rectangle. -/
def locateOccurrence (doc : Doc) (search : String) (lastPos : Option ℚ) :
    Option (ℕ × Rect) :=
  locateGo search lastPos doc.pages 0

/-- The checkbox characters of `_replace_once`. -/
def checkboxChars : List Char :=
  ['□', '■', '☐', '☑', '☒', '⬜', '⬛']

/-- Python `max` over a non-empty list (`0` on the impossible empty list). -/
def maxQ : List ℚ → ℚ
  | [] => 0
  | x :: xs => xs.foldl max x

/-- Python `min` over a non-empty list (`0` on the impossible empty list). -/
def minQ : List ℚ → ℚ
  | [] => 0
  | x :: xs => xs.foldl min x

/-- The plain-text glyphs among the target glyphs (`text_glyphs`). -/
def textGlyphsOf (targetGlyphs : List Glyph) : List Glyph :=
  targetGlyphs.filter (fun g => !(checkboxChars.contains g.c))

/-- The checkbox glyphs among the target glyphs (`checkbox_glyphs`). -/
def checkboxGlyphsOf (targetGlyphs : List Glyph) : List Glyph :=
  targetGlyphs.filter (fun g => checkboxChars.contains g.c)

/-- The glyphs used for the baseline (`baseline_glyphs`): the text glyphs
when any exist, else all target glyphs. -/
def baselineGlyphsOf (targetGlyphs : List Glyph) : List Glyph :=
  if (textGlyphsOf targetGlyphs).isEmpty then targetGlyphs
  else textGlyphsOf targetGlyphs

/-- Condition `checkbox_glyphs and text_glyphs`: checkbox glyphs are mixed
in with text glyphs. -/
def mixedRun (targetGlyphs : List Glyph) : Bool :=
  !(checkboxGlyphsOf targetGlyphs).isEmpty && !(textGlyphsOf targetGlyphs).isEmpty

/-- Baseline computation of `_replace_once` (steps 1-4 of its comment block):
partition the target glyphs into checkbox and text glyphs, select text glyphs
for the baseline when any exist (else all target glyphs), read the font size
from the first selected glyph, take the raw baseline `max` of the glyph
bottoms (`bbox[3]`) and the `min` of the glyph tops (`bbox[1]`), compute the
excess of the glyph height over the font size, and shift the raw baseline up
by `min(excess * 0.5, fontsize * 0.1)` when checkbox glyphs are mixed with
text glyphs, else by `min(excess * 1.8, fontsize * 0.2)`. -/
def computeBaseline (targetGlyphs : List Glyph) : ℚ :=
  let baselineGlyphs := baselineGlyphsOf targetGlyphs
  let fontsize := (baselineGlyphs.headD default).size
  let baselineRaw := maxQ (baselineGlyphs.map (fun g => g.bbox.y1))
  let glyphTop := minQ (baselineGlyphs.map (fun g => g.bbox.y0))
  let glyphHeight := baselineRaw - glyphTop
  let excess := max 0 (glyphHeight - fontsize)
  let baselineShift :=
    if mixedRun targetGlyphs then
      min (excess * (1 / 2)) (fontsize * (1 / 10))
    else
      min (excess * (9 / 5)) (fontsize * (1 / 5))
  baselineRaw - baselineShift

/-- Dominant font of `_replace_once`: the non-empty font name occurring most
often among the target glyphs, ties broken by first occurrence (Python
`Counter.most_common` keeps insertion order for equal counts); falls back to
the first glyph's font when the counter is empty. -/
def dominantFont (gs : List Glyph) : String :=
  let names := (gs.map (fun g => g.font)).filter (fun n => n != "")
  match names with
  | [] => (gs.headD default).font
  | n0 :: _ =>
    names.foldl (fun best n => if names.count best < names.count n then n else best) n0

/-- Size of the representative glyph: the first target glyph using the
dominant font, else the first target glyph. -/
def repGlyphSize (gs : List Glyph) (dom : String) : ℚ :=
  (((gs.find? (fun g => g.font == dom)).getD (gs.headD default))).size

/-- A recorded document mutation: a redaction of a rectangle, or text drawn
starting at `x` on baseline `baselineY`.  The source writes the sanitized
replacement character by character, advancing the pen by each character's
measured width; the drawn text is recorded here as one operation. -/
inductive Edit where
  | redact (pageIdx : ℕ) (rect : Rect)
  | draw (pageIdx : ℕ) (text : String) (x : ℚ) (baselineY : ℚ)
      (fontName : String) (fontSize : ℚ)
deriving DecidableEq, Repr

/-- A recorded log event of the engine. -/
inductive Ev where
  | debugNotFound (search : String)
deriving DecidableEq, Repr

/-- Result of one `_replace_once` call: the returned cursor value, the
document mutations performed, and the log events emitted. -/
structure ReplaceResult where
  newPos : Option ℚ
  edits : List Edit
  events : List Ev
deriving DecidableEq, Repr

/-- Inner helper `_replace_once`: locate the target rectangle respecting the
cursor; on `NotFound` log at debug level and return the cursor unchanged.
Otherwise collect the glyphs of the selected page intersecting the
rectangle; when none intersect, skip the rectangle (no redaction, no
drawing, no log) - the function still returns `page_offset +
selected_rect.y1`.  When glyphs intersect, sanitize the replacement (only
after the locate phase), redact the rectangle and draw the sanitized text at
`rect.x0` on the computed baseline in the dominant font. -/
def replace_once (doc : Doc) (search repl : String) (lastPos : Option ℚ) :
    ReplaceResult :=
  match locateOccurrence doc search lastPos with
  | none => { newPos := lastPos, edits := [], events := [Ev.debugNotFound search] }
  | some (pi, rect) =>
    let page := doc.pages.getD pi default
    let targetGlyphs := page.glyphs.filter (fun g => rect.intersects g.bbox)
    let newPos : Option ℚ := some ((pi : ℚ) * page.height + rect.y1)
    if targetGlyphs.isEmpty then
      { newPos := newPos, edits := [], events := [] }
    else
      let sanitizedRepl := sanitize_unicode_for_pdf repl
      let fontName := dominantFont targetGlyphs
      { newPos := newPos,
        edits := [Edit.redact pi rect,
                  Edit.draw pi sanitizedRepl rect.x0 (computeBaseline targetGlyphs)
                    fontName (repGlyphSize targetGlyphs fontName)],
        events := [] }

/-- A renderable font handle (opaque to the engine; identified by name). -/
structure Font where
  id : String
deriving DecidableEq, Repr

/-- Environment of font primitives seen by `_get_font`.

`mkFont` models `fitz.Font(fontname=...)` and `mkFontFile` models
`fitz.Font(fontfile=...)`; `none` models the constructor raising.  `helv`
models the PyMuPDF guarantee that constructing the built-in Helvetica
always succeeds (the source's final `fitz.Font(fontname="helv")` is outside
any `try`).

Modelled from the spec: `get_available_font` lives in
`back/filler_agent/font_manager.py`, which is not part of the sources here;
per section 4.4 of the spec it is an external font-management helper that
may download a matching font file into a cache directory and returns a
resolved name together with an optional font-file path. -/
structure FontEnv where
  mkFont : String → Option Font
  mkFontFile : String → Option Font
  helv : Font
  getAvailableFont : String → String × Option String

/-- The `pymupdf_font_map` table of `_get_font`, in insertion order. -/
def pymupdfFontMap : List (String × String) :=
  [("lmroman", "tiro"), ("cmr", "tiro"), ("times", "tiro"),
   ("arial", "helv"), ("helvetica", "helv"), ("lmsans", "helv"),
   ("cmss", "helv"), ("courier", "cour"), ("lmmono", "cour"),
   ("cmtt", "cour")]

/-- Step 2 of `_get_font`: walk the font map; on a case-insensitively
matching family name try the built-in font, continuing with later entries
when the constructor fails. -/
def fontMapLookup (env : FontEnv) (nameLower : String) :
    List (String × String) → Option Font
  | [] => none
  | (fam, builtin) :: rest =>
    if strStartsWith nameLower fam then
      match env.mkFont builtin with
      | some f => some f
      | none => fontMapLookup env nameLower rest
    else fontMapLookup env nameLower rest

/-- Family fallback after the external helper: when the resolved name names a
times-like family try the built-in serif font, else when it names an
arial/helvetica-like family try the built-in sans font. -/
def familyFallback (env : FontEnv) (resolved : String) : Option Font :=
  if containsSub "times" resolved.toLower then env.mkFont "tiro"
  else if containsSub "arial" resolved.toLower || containsSub "helvetica" resolved.toLower then
    env.mkFont "helv"
  else none

/-- Inner helper `_get_font`: the degradation ladder with memoization.  The
cache is the per-invocation `font_cache` dictionary, modelled as an
association list whose most recent binding wins. -/
def get_font (env : FontEnv) (cache : List (String × Font)) (name : String) :
    Font × List (String × Font) :=
  match cache.lookup name with
  | some f => (f, cache)
  | none =>
    match env.mkFont name with
    | some f => (f, (name, f) :: cache)
    | none =>
      match fontMapLookup env name.toLower pymupdfFontMap with
      | some f => (f, (name, f) :: cache)
      | none =>
        let resolved := (env.getAvailableFont name).1
        let fontPath := (env.getAvailableFont name).2
        match fontPath.bind env.mkFontFile with
        | some f => (f, (name, f) :: cache)
        | none =>
          match familyFallback env resolved with
          | some f => (f, (name, f) :: cache)
          | none =>
            match env.mkFont resolved with
            | some f => (f, (name, f) :: cache)
            | none => (env.helv, (name, env.helv) :: cache)

/-- State threaded by the sequential driver of
`replace_text_preserve_layout_pdf`: the `last_position` cursor plus the
accumulated document mutations and log events. -/
structure DriverState where
  lastPosition : Option ℚ
  edits : List Edit
  events : List Ev
deriving DecidableEq, Repr

/-- Driver state at the start of a batch. -/
def initState (position : Option ℚ) : DriverState :=
  { lastPosition := position, edits := [], events := [] }

/-- One iteration of the driver loop: skip an empty search line; for a pair
with `search == replacement` advance the cursor with
`get_string_last_char_position_pdf` (its empty-string validation cannot fire
under the guard, so the page loop is called directly); otherwise run
`_replace_once` and take its returned cursor. -/
def driverStep (doc : Doc) (st : DriverState) (pr : String × String) :
    DriverState :=
  if pr.1 = "" then st
  else if pr.1 = pr.2 then
    { st with lastPosition := gslcpGo pr.1 st.lastPosition doc.pages 0 }
  else
    let r := replace_once doc pr.1 pr.2 st.lastPosition
    { lastPosition := r.newPos, edits := st.edits ++ r.edits,
      events := st.events ++ r.events }

/-- The driver loop over the (already filtered) line pairs. -/
def runPairs (doc : Doc) : List (String × String) → DriverState → DriverState
  | [], st => st
  | pr :: rest, st => runPairs doc rest (driverStep doc st pr)

/-- Cursor values observed before/after each pair of the driver loop. -/
def cursorTrace (doc : Doc) : List (String × String) → DriverState → List (Option ℚ)
  | [], st => [st.lastPosition]
  | pr :: rest, st => st.lastPosition :: cursorTrace doc rest (driverStep doc st pr)

/-- Pair filter of `replace_text_preserve_layout_pdf` (source lines 671-680):
`related_lines` is the set of search lines having some index where they
differ from their replacement; only pairs whose search line lies in that set
are kept, in order. -/
def driverPairs (s1Lines s2Lines : List String) : List (String × String) :=
  (s1Lines.zip s2Lines).filter
    (fun pr => (s1Lines.zip s2Lines).any (fun q => q.1 == pr.1 && q.1 != q.2))

/-- Function `replace_text_preserve_layout_pdf` on line lists: reject an
empty (falsy) `s1`, then mismatched line counts, then run the driver loop
over the filtered pairs starting from the caller-supplied position. -/
def replace_text_preserve_layout_pdf (doc : Doc) (s1Lines s2Lines : List String)
    (position : Option ℚ) : Except Err DriverState :=
  if s1Lines.isEmpty then .error .emptySearch
  else if s1Lines.length ≠ s2Lines.length then .error .lengthMismatch
  else .ok (runPairs doc (driverPairs s1Lines s2Lines) (initState position))

/-- Pair filter as worded by the specification (refinement counterpart of
`driverPairs`, written from the spec, not from the source): drop pairs with
an empty search string, then retain pairs whose search string equals the
search string of at least one differing pair of the list. -/
def specFilter (pairs : List (String × String)) : List (String × String) :=
  (pairs.filter (fun pr => pr.1 != "")).filter
    (fun pr => pairs.any (fun q => q.1 == pr.1 && q.1 != q.2))

/-- Strict order on optional cursor values: an unset cursor lies below every
set cursor. -/
def optLt (a b : Option ℚ) : Bool :=
  match a, b with
  | _, none => false
  | none, some _ => true
  | some x, some y => decide (x < y)

/-- Cursor evolution claimed for one pair: unchanged or strictly advanced. -/
abbrev cursorAdvanced (before after : Option ℚ) : Prop :=
  after = before ∨ optLt before after = true


/-- Global page offset `page_index * page.rect.height` of page `i`, as
computed at source line 662. -/
def pageOffsetAt (doc : Doc) (i : ℕ) : ℚ :=
  (i : ℚ) * (doc.pages.getD i default).height

/-- A page on which no search string occurs. -/
def emptyPage : Page :=
  { height := 100, search := fun _ => [], lines := [], glyphs := [] }

/-- A one-page document with no text at all. -/
def doc0 : Doc := ⟨[emptyPage]⟩

/-- A concrete occurrence rectangle. -/
def rect45 : Rect := ⟨10, 40, 30, 45⟩

/-- A page on which the string `"x"` occurs once, at `rect45`, with no
extractable glyphs. -/
def hitPage : Page :=
  { height := 100, search := fun t => if t = "x" then [rect45] else [],
    lines := [], glyphs := [] }

/-- A one-page document whose only occurrence of `"x"` is at `rect45`. -/
def doc2 : Doc := ⟨[hitPage]⟩

/-- A concrete plain-text glyph of size 10 with bounding box `(0,10,5,22)`. -/
def glyphA : Glyph := ⟨'A', ⟨0, 10, 5, 22⟩, "F1", 10, 0, 0⟩

/-- A structured line whose single span reads `"x ab"`: it contains `"ab"`,
but not aligned to a span boundary. -/
def lineTop : Line := ⟨⟨0, 5, 30, 10⟩, [⟨"x ab", ⟨0, 5, 30, 10⟩⟩]⟩

/-- A structured line whose single span reads exactly `"ab"`. -/
def lineBot : Line := ⟨⟨0, 45, 20, 50⟩, [⟨"ab", ⟨0, 45, 20, 50⟩⟩]⟩

/-- A page reporting two top-to-bottom ordered hits for `"ab"`: one inside
`lineTop` (mid-span, at bottom 10) and one at `lineBot` (span-aligned, at
bottom 50). -/
def pageTwoHits : Page :=
  { height := 100,
    search := fun t => if t = "ab" then [⟨0, 5, 20, 10⟩, ⟨0, 45, 20, 50⟩] else [],
    lines := [lineTop, lineBot], glyphs := [] }

/-- A one-page document with the two ordered `"ab"` occurrences. -/
def doc3 : Doc := ⟨[pageTwoHits]⟩

/-- A font environment whose constructors all fail and whose external helper
finds no font file: only the guaranteed built-in remains. -/
def fontEnvFail : FontEnv :=
  { mkFont := fun _ => none, mkFontFile := fun _ => none,
    helv := ⟨"Helvetica"⟩, getAvailableFont := fun n => (n, none) }

/-! ### Lemmas about `sanitize_unicode_for_pdf` -/

/-- Character replacement distributes over list concatenation. -/
theorem replaceChar_append (c : Char) (r a b : List Char) :
    replaceChar c r (a ++ b) = replaceChar c r a ++ replaceChar c r b := by
  simp [replaceChar]

/-- The whole replacement pass distributes over list concatenation. -/
theorem foldRepl_append (ps : List (Char × List Char)) (a b : List Char) :
    ps.foldl (fun t p => replaceChar p.1 p.2 t) (a ++ b) =
      ps.foldl (fun t p => replaceChar p.1 p.2 t) a ++
        ps.foldl (fun t p => replaceChar p.1 p.2 t) b := by
  induction ps generalizing a b with
  | nil => rfl
  | cons p rest ih => simpa [replaceChar_append] using ih _ _

/-- Disequality with every mapped code point, split out of
non-membership in `mappedChars`. -/
theorem unmapped_beq_false {ch : Char} (h : ¬ ch ∈ mappedChars) :
    (ch == '“') = false ∧ (ch == '”') = false ∧
    (ch == '‘') = false ∧ (ch == '’') = false ∧
    (ch == '—') = false ∧ (ch == '–') = false ∧
    (ch == '…') = false ∧ (ch == ' ') = false := by
  simp only [mappedChars, List.mem_cons, List.not_mem_nil, or_false, not_or] at h
  obtain ⟨h1, h2, h3, h4, h5, h6, h7, h8⟩ := h
  exact ⟨beq_eq_false_iff_ne.mpr h1, beq_eq_false_iff_ne.mpr h2,
    beq_eq_false_iff_ne.mpr h3, beq_eq_false_iff_ne.mpr h4,
    beq_eq_false_iff_ne.mpr h5, beq_eq_false_iff_ne.mpr h6,
    beq_eq_false_iff_ne.mpr h7, beq_eq_false_iff_ne.mpr h8⟩

/-- An unmapped character is left alone by `charMap`. -/
theorem charMap_of_unmapped {ch : Char} (h : ¬ ch ∈ mappedChars) :
    charMap ch = [ch] := by
  obtain ⟨b1, b2, b3, b4, b5, b6, b7, b8⟩ := unmapped_beq_false h
  simp [charMap, unicodeReplacements, List.lookup, b1, b2, b3, b4, b5, b6, b7, b8]

/-- On a single character the replacement pass is exactly `charMap`. -/
theorem foldRepl_singleton (ch : Char) :
    unicodeReplacements.foldl (fun t p => replaceChar p.1 p.2 t) [ch] = charMap ch := by
  by_cases h : ch ∈ mappedChars
  · fin_cases h <;> decide
  · obtain ⟨b1, b2, b3, b4, b5, b6, b7, b8⟩ := unmapped_beq_false h
    have e1 : ¬ ch = '“' := by simpa using beq_eq_false_iff_ne.mp b1
    have e2 : ¬ ch = '”' := by simpa using beq_eq_false_iff_ne.mp b2
    have e3 : ¬ ch = '‘' := by simpa using beq_eq_false_iff_ne.mp b3
    have e4 : ¬ ch = '’' := by simpa using beq_eq_false_iff_ne.mp b4
    have e5 : ¬ ch = '—' := by simpa using beq_eq_false_iff_ne.mp b5
    have e6 : ¬ ch = '–' := by simpa using beq_eq_false_iff_ne.mp b6
    have e7 : ¬ ch = '…' := by simpa using beq_eq_false_iff_ne.mp b7
    have e8 : ¬ ch = ' ' := by simpa using beq_eq_false_iff_ne.mp b8
    rw [charMap_of_unmapped h]
    simp [unicodeReplacements, replaceChar, e1, e2, e3, e4, e5, e6, e7, e8]

/-- The whole replacement pass is the per-character map `charMap`. -/
theorem foldRepl_eq_flatMap (l : List Char) :
    unicodeReplacements.foldl (fun t p => replaceChar p.1 p.2 t) l =
      l.flatMap charMap := by
  induction l with
  | nil => decide
  | cons ch rest ih =>
    have h : ch :: rest = [ch] ++ rest := rfl
    rw [h, foldRepl_append, foldRepl_singleton, ih]
    simp

/-- Character-level description of `sanitize_unicode_for_pdf`. -/
theorem sanitize_data (t : String) :
    (sanitize_unicode_for_pdf t).data = t.data.flatMap charMap := by
  obtain ⟨l⟩ := t
  by_cases h : String.mk l = ""
  · simp only [sanitize_unicode_for_pdf, if_pos h]
    obtain rfl : l = [] := by
      have := congrArg String.data h
      simpa using this
    rfl
  · simp only [sanitize_unicode_for_pdf, if_neg h]
    exact foldRepl_eq_flatMap l

/-- No character produced by `charMap` is itself a mapped code point. -/
theorem charMap_unmapped (ch c : Char) (hc : c ∈ charMap ch) :
    ¬ c ∈ mappedChars := by
  by_cases h : ch ∈ mappedChars
  · fin_cases h <;>
      · simp +decide [charMap, unicodeReplacements, List.lookup] at hc
        subst hc
        decide
  · rw [charMap_of_unmapped h] at hc
    simp only [List.mem_cons, List.not_mem_nil, or_false] at hc
    subst hc
    exact h

/-- A list all of whose characters are unmapped is fixed by the map. -/
theorem flatMap_charMap_of_clean {l : List Char}
    (h : ∀ c ∈ l, ¬ c ∈ mappedChars) : l.flatMap charMap = l := by
  induction l with
  | nil => rfl
  | cons c rest ih =>
    rw [List.flatMap_cons, charMap_of_unmapped (h c (by simp)),
      ih (fun d hd => h d (by simp [hd]))]
    rfl

/-- Every character of a sanitized string is unmapped. -/
theorem sanitize_clean (t : String) (c : Char)
    (hc : c ∈ (sanitize_unicode_for_pdf t).data) : ¬ c ∈ mappedChars := by
  rw [sanitize_data] at hc
  obtain ⟨ch, _, hcm⟩ := List.mem_flatMap.mp hc
  exact charMap_unmapped ch c hcm

/-- Sanitization is invariant under a second pass. -/
theorem sanitize_sanitize (t : String) :
    sanitize_unicode_for_pdf (sanitize_unicode_for_pdf t) = sanitize_unicode_for_pdf t := by
  apply String.ext
  rw [sanitize_data, sanitize_data]
  apply flatMap_charMap_of_clean
  intro c hc
  rw [← sanitize_data] at hc
  exact sanitize_clean t c hc

/-- C9: for every string, `sanitize_unicode_for_pdf` produces a string free
of the eight mapped code points, each occurrence replaced by its ASCII
equivalent and all other characters unchanged (the character-wise map
`charMap`); and inside `_replace_once` sanitization touches only the
replacement text after the locate phase: the selected occurrence and the
returned cursor do not depend on the replacement text, and every drawn text
is exactly the sanitized replacement. -/
theorem C9_sanitize_mapping_after_locate (t : String) (doc : Doc)
    (s r r2 : String) (p : Option ℚ) :
    ((sanitize_unicode_for_pdf t).data.all
        (fun c => !(mappedChars.contains c)) = true)
    ∧ (sanitize_unicode_for_pdf t).data = t.data.flatMap charMap
    ∧ (replace_once doc s r p).newPos = (replace_once doc s r2 p).newPos
    ∧ ((replace_once doc s r p).edits.all (fun e =>
        match e with
        | Edit.draw _ txt _ _ _ _ => txt == sanitize_unicode_for_pdf r
        | Edit.redact _ _ => true) = true) := by
  refine ⟨?_, sanitize_data t, ?_, ?_⟩
  · rw [List.all_eq_true]
    intro c hc
    have h := sanitize_clean t c hc
    simpa using h
  · cases hl : locateOccurrence doc s p with
    | none => simp [replace_once, hl]
    | some pr =>
      obtain ⟨pi, rect⟩ := pr
      simp only [replace_once, hl]
      split <;> rfl
  · cases hl : locateOccurrence doc s p with
    | none => simp [replace_once, hl]
    | some pr =>
      obtain ⟨pi, rect⟩ := pr
      simp only [replace_once, hl]
      split
      · rfl
      · simp

/-- C10: `sanitize_unicode_for_pdf` is idempotent, and every string
containing none of the eight mapped code points is returned unchanged. -/
theorem C10_sanitize_idempotent (t u : String) :
    sanitize_unicode_for_pdf (sanitize_unicode_for_pdf t) = sanitize_unicode_for_pdf t
    ∧ (u.data.all (fun c => !(mappedChars.contains c)) = true →
        sanitize_unicode_for_pdf u = u) := by
  refine ⟨sanitize_sanitize t, fun h => ?_⟩
  apply String.ext
  rw [sanitize_data]
  apply flatMap_charMap_of_clean
  intro c hc
  have := (List.all_eq_true.mp h) c hc
  simpa using this

/-- Witness for C10 at a concrete clean string. -/
theorem C10_sanitize_idempotent_witness :
    sanitize_unicode_for_pdf (sanitize_unicode_for_pdf "Name: Alice") =
      sanitize_unicode_for_pdf "Name: Alice"
    ∧ sanitize_unicode_for_pdf "Name: Alice" = "Name: Alice" :=
  ⟨(C10_sanitize_idempotent "Name: Alice" "Name: Alice").1,
   (C10_sanitize_idempotent "Name: Alice" "Name: Alice").2 (by decide)⟩

/-! ### Lemmas about the occurrence locator -/

/-- Meaning of the position criterion for a set cursor. -/
theorem posOk_some_iff (q y : ℚ) : posOk (some q) y = true ↔ q < y := by
  simp [posOk]

/-- The page loop of `get_string_last_char_position_pdf` only returns
positions strictly beyond a set cursor. -/
theorem gslcpGo_some_gt (s : String) (q : ℚ) :
    ∀ (pages : List Page) (idx : ℕ) (y : ℚ),
      gslcpGo s (some q) pages idx = some y → q < y := by
  intro pages
  induction pages with
  | nil => intro idx y h; simp [gslcpGo] at h
  | cons page rest ih =>
    intro idx y h
    simp only [gslcpGo] at h
    cases hf : (page.search s).find?
        (fun r => posOk (some q) ((idx : ℚ) * page.height + r.y1)) with
    | none =>
      rw [hf] at h
      exact ih (idx + 1) y h
    | some r =>
      rw [hf] at h
      have hp := List.find?_some hf
      have : (idx : ℚ) * page.height + r.y1 = y := by
        simpa using h
      exact this ▸ (posOk_some_iff q _).mp hp

/-- Folding rectangle unions never decreases the bottom coordinate. -/
theorem foldl_union_y1 (l : List Rect) :
    ∀ b : Rect, b.y1 ≤ (l.foldl Rect.union b).y1 := by
  induction l with
  | nil => intro b; exact le_refl _
  | cons a t ih =>
    intro b
    exact le_trans (le_max_left b.y1 a.y1) (ih (Rect.union b a))

/-- The union of a hit with its followers never decreases the bottom. -/
theorem sameHitUnion_y1_le (b : Rect) (fs : List Rect) :
    b.y1 ≤ (sameHitUnion b fs).y1 :=
  foldl_union_y1 _ b

/-- The fallback selection only returns rectangles strictly beyond a set
cursor. -/
theorem fallbackSelect_some_gt (q offset : ℚ) :
    ∀ (rects : List Rect) (r : Rect),
      fallbackSelect (some q) offset rects = some r → q < offset + r.y1 := by
  intro rects
  induction rects with
  | nil => intro r h; simp [fallbackSelect] at h
  | cons r0 rest ih =>
    intro r h
    rw [fallbackSelect] at h
    by_cases hp : posOk (some q) (offset + r0.y1) = true
    · rw [if_pos hp] at h
      have hr : sameHitUnion r0 rest = r := by simpa using h
      have hq : q < offset + r0.y1 := (posOk_some_iff q _).mp hp
      have hle : r0.y1 ≤ r.y1 := hr ▸ sameHitUnion_y1_le r0 rest
      exact lt_of_lt_of_le hq (by exact add_le_add_left hle offset)
    · rw [if_neg (by simpa using hp)] at h
      exact ih r h

/-- The line-level disambiguation only returns rectangles strictly beyond a
set cursor. -/
theorem findLineMatch_some_gt (search : String) (q offset : ℚ) :
    ∀ (lines : List Line) (r : Rect),
      findLineMatch search (some q) offset lines = some r → q < offset + r.y1 := by
  intro lines
  induction lines with
  | nil => intro r h; simp [findLineMatch] at h
  | cons line rest ih =>
    intro r h
    rw [findLineMatch] at h
    by_cases hc : containsSub search (lineConcat line) = true
    · rw [if_pos hc] at h
      by_cases hp : posOk (some q) (offset + line.bbox.y1) = true
      · rw [if_pos hp] at h
        cases hs : spanScan search line.spans "" none none with
        | mk sx ex =>
          rw [hs] at h
          cases sx with
          | none =>
            cases ex with
            | none => exact ih r h
            | some e => exact ih r h
          | some sxv =>
            cases ex with
            | none => exact ih r h
            | some e =>
              have hr : (⟨sxv, line.bbox.y0, e, line.bbox.y1⟩ : Rect) = r := by
                simpa using h
              have hy : r.y1 = line.bbox.y1 := by rw [← hr]
              rw [hy]
              exact (posOk_some_iff q _).mp hp
      · rw [if_neg (by simpa using hp)] at h
        exact ih r h
    · rw [if_neg (by simpa using hc)] at h
      exact ih r h

/-- The page-level selection only returns rectangles strictly beyond a set
cursor. -/
theorem pageSelect_some_gt (search : String) (q offset : ℚ) (page : Page)
    (r : Rect) (h : pageSelect search (some q) offset page = some r) :
    q < offset + r.y1 := by
  rw [pageSelect] at h
  by_cases he : (page.search search).isEmpty = true
  · rw [if_pos he] at h
    exact absurd h (by simp)
  · rw [if_neg (by simpa using he)] at h
    by_cases hl : 1 < (page.search search).length
    · rw [if_pos hl] at h
      cases hfl : findLineMatch search (some q) offset page.lines with
      | some r' =>
        rw [hfl] at h
        have : r' = r := by simpa using h
        exact this ▸ findLineMatch_some_gt search q offset page.lines r' hfl
      | none =>
        rw [hfl] at h
        exact fallbackSelect_some_gt q offset _ r h
    · rw [if_neg hl] at h
      exact fallbackSelect_some_gt q offset _ r h

/-- Invariant of the locate page loop: a selected page lies at or after the
loop start, inside the document, and the selection was made by `pageSelect`
on that page with its own global offset. -/
theorem locateGo_spec (search : String) (lp : Option ℚ) (doc : Doc) :
    ∀ (l : List Page) (idx pi : ℕ) (rect : Rect),
      doc.pages.drop idx = l →
      locateGo search lp l idx = some (pi, rect) →
      idx ≤ pi ∧ pi < doc.pages.length ∧
        pageSelect search lp ((pi : ℚ) * (doc.pages.getD pi default).height)
          (doc.pages.getD pi default) = some rect := by
  intro l
  induction l with
  | nil => intro idx pi rect _ h; simp [locateGo] at h
  | cons page rest ih =>
    intro idx pi rect hdrop h
    have hget : doc.pages[idx]? = some page := by
      rw [← List.head?_drop, hdrop]; rfl
    have hlt : idx < doc.pages.length := by
      by_contra hc
      push_neg at hc
      rw [List.getElem?_eq_none hc] at hget
      exact Option.noConfusion hget
    have hgetD : doc.pages.getD idx default = page := by
      rw [List.getD_eq_getElem?_getD, hget]; rfl
    have hrest : doc.pages.drop (idx + 1) = rest := by
      rw [← List.tail_drop, hdrop]; rfl
    rw [locateGo] at h
    cases hps : pageSelect search lp ((idx : ℚ) * page.height) page with
    | some r =>
      rw [hps] at h
      have hpair : pi = idx ∧ r = rect := by
        have := h
        simp at this
        exact ⟨this.1.symm, this.2⟩
      obtain ⟨hpi, hr⟩ := hpair
      subst hpi
      subst hr
      exact ⟨le_refl _, hlt, by rw [hgetD]; exact hps⟩
    | none =>
      rw [hps] at h
      obtain ⟨h1, h2, h3⟩ := ih (idx + 1) pi rect hrest h
      exact ⟨le_trans (Nat.le_succ idx) h1, h2, h3⟩

/-- A page with no search hits selects nothing. -/
theorem pageSelect_of_no_hits (search : String) (lp : Option ℚ) (offset : ℚ)
    (page : Page) (h : page.search search = []) :
    pageSelect search lp offset page = none := by
  simp [pageSelect, h]

/-- With an unset cursor, a page with any search hit selects something. -/
theorem pageSelect_none_of_none (search : String) (offset : ℚ) (page : Page)
    (h : pageSelect search none offset page = none) :
    page.search search = [] := by
  rw [pageSelect] at h
  cases hr : page.search search with
  | nil => rfl
  | cons r rest =>
    rw [hr] at h
    simp only [List.isEmpty_cons, Bool.false_eq_true, if_false] at h
    cases hfl : (if 1 < (r :: rest).length then
        findLineMatch search none offset page.lines else none) with
    | some r' => rw [hfl] at h; exact absurd h (by simp)
    | none =>
      rw [hfl] at h
      rw [fallbackSelect] at h
      have : posOk none (offset + r.y1) = true := rfl
      rw [if_pos this] at h
      exact absurd h (by simp)

/-- With an unset cursor, every page strictly before the selected one has no
search hits. -/
theorem locateGo_none_first (search : String) (doc : Doc) :
    ∀ (l : List Page) (idx pi : ℕ) (rect : Rect),
      doc.pages.drop idx = l →
      locateGo search none l idx = some (pi, rect) →
      ∀ j, idx ≤ j → j < pi → (doc.pages.getD j default).search search = [] := by
  intro l
  induction l with
  | nil => intro idx pi rect _ h; simp [locateGo] at h
  | cons page rest ih =>
    intro idx pi rect hdrop h j hij hjpi
    have hget : doc.pages[idx]? = some page := by
      rw [← List.head?_drop, hdrop]; rfl
    have hgetD : doc.pages.getD idx default = page := by
      rw [List.getD_eq_getElem?_getD, hget]; rfl
    have hrest : doc.pages.drop (idx + 1) = rest := by
      rw [← List.tail_drop, hdrop]; rfl
    rw [locateGo] at h
    cases hps : pageSelect search none ((idx : ℚ) * page.height) page with
    | some r =>
      rw [hps] at h
      have hpi : pi = idx := by
        have := h
        simp at this
        exact this.1.symm
      omega
    | none =>
      rw [hps] at h
      rcases Nat.eq_or_lt_of_le hij with hj | hj
      · subst hj
        rw [hgetD]
        exact pageSelect_none_of_none search _ page hps
      · exact ih (idx + 1) pi rect hrest h j hj hjpi

/-- With an unset cursor the find-first predicate accepts everything. -/
theorem find?_posOk_none (offset : ℚ) (l : List Rect) :
    l.find? (fun r => posOk none (offset + r.y1)) = l.head? := by
  cases l with
  | nil => rfl
  | cons a t => rfl

/-- With an unset cursor the page loop of
`get_string_last_char_position_pdf` returns the head of the flattened
occurrence list. -/
theorem gslcpGo_none_eq_head (s : String) :
    ∀ (pages : List Page) (idx : ℕ),
      gslcpGo s none pages idx = (globalHitsFrom s pages idx).head? := by
  intro pages
  induction pages with
  | nil => intro idx; rfl
  | cons page rest ih =>
    intro idx
    simp only [gslcpGo, globalHitsFrom, find?_posOk_none]
    cases hr : page.search s with
    | nil => simpa [hr] using ih (idx + 1)
    | cons r t => simp [hr]

/-- With an unset cursor the fallback always selects the first reported
rectangle's hit. -/
theorem fallbackSelect_none_head (offset : ℚ) (r : Rect) (rest : List Rect) :
    fallbackSelect none offset (r :: rest) = some (sameHitUnion r rest) := rfl

/-- With an unset cursor, a page-level selection either comes from the line
disambiguation (only possible when more than one rectangle is reported) or
is the first reported rectangle's hit. -/
theorem pageSelect_none_spec (s : String) (offset : ℚ) (page : Page)
    (rect : Rect) (h : pageSelect s none offset page = some rect) :
    ∃ r rest, page.search s = r :: rest ∧
      ((1 < (r :: rest).length ∧
          findLineMatch s none offset page.lines = some rect)
        ∨ rect = sameHitUnion r rest) := by
  rw [pageSelect] at h
  by_cases he : (page.search s).isEmpty = true
  · rw [if_pos he] at h
    exact absurd h (by simp)
  · obtain ⟨r, rest, hr⟩ : ∃ r rest, page.search s = r :: rest := by
      cases hx : page.search s with
      | nil => rw [hx] at he; exact absurd rfl he
      | cons a t => exact ⟨a, t, rfl⟩
    rw [if_neg he] at h
    refine ⟨r, rest, hr, ?_⟩
    by_cases hl : 1 < (page.search s).length
    · rw [if_pos hl] at h
      cases hfl : findLineMatch s none offset page.lines with
      | some r' =>
        rw [hfl] at h
        have hr' : r' = rect := by simpa using h
        subst hr'
        exact Or.inl ⟨hr ▸ hl, rfl⟩
      | none =>
        rw [hfl] at h
        rw [hr, fallbackSelect_none_head] at h
        have h' : sameHitUnion r rest = rect := by simpa using h
        exact Or.inr h'.symm
    · rw [if_neg hl] at h
      rw [hr, fallbackSelect_none_head] at h
      have h' : sameHitUnion r rest = rect := by simpa using h
      exact Or.inr h'.symm

/-- With an unset cursor the line disambiguation selects the first line (in
the reported line order) that contains the search string and passes the
span-alignment scan; the selected rectangle spans that line's vertical
extent. -/
theorem findLineMatch_none_first (s : String) (offset : ℚ) :
    ∀ (lines : List Line) (rect : Rect),
      findLineMatch s none offset lines = some rect →
      ∃ l1 line l2, lines = l1 ++ line :: l2
        ∧ (∀ line' ∈ l1, lineHit s line' = false)
        ∧ lineHit s line = true
        ∧ rect.y0 = line.bbox.y0 ∧ rect.y1 = line.bbox.y1 := by
  intro lines
  induction lines with
  | nil => intro rect h; simp [findLineMatch] at h
  | cons line rest ih =>
    intro rect h
    rw [findLineMatch] at h
    by_cases hc : containsSub s (lineConcat line) = true
    · rw [if_pos hc,
        if_pos (show posOk none (offset + line.bbox.y1) = true from rfl)] at h
      cases hs : spanScan s line.spans "" none none with
      | mk sx ex =>
        rw [hs] at h
        cases sx with
        | some a =>
          cases ex with
          | some b =>
            have hrect : (⟨a, line.bbox.y0, b, line.bbox.y1⟩ : Rect) = rect := by
              simpa using h
            refine ⟨[], line, rest, rfl, by simp, ?_, by rw [← hrect], by rw [← hrect]⟩
            simp [lineHit, hc, hs]
          | none =>
            obtain ⟨l1, line', l2, heq, hall, hhit, hy0, hy1⟩ := ih rect h
            refine ⟨line :: l1, line', l2, by rw [heq]; rfl, ?_, hhit, hy0, hy1⟩
            intro x hx
            rcases List.mem_cons.mp hx with hx | hx
            · subst hx
              simp [lineHit, hc, hs]
            · exact hall x hx
        | none =>
          obtain ⟨l1, line', l2, heq, hall, hhit, hy0, hy1⟩ := ih rect h
          refine ⟨line :: l1, line', l2, by rw [heq]; rfl, ?_, hhit, hy0, hy1⟩
          intro x hx
          rcases List.mem_cons.mp hx with hx | hx
          · subst hx
            simp [lineHit, hc, hs]
          · exact hall x hx
    · rw [if_neg hc] at h
      obtain ⟨l1, line', l2, heq, hall, hhit, hy0, hy1⟩ := ih rect h
      have hcf : containsSub s (lineConcat line) = false := by
        simpa using hc
      refine ⟨line :: l1, line', l2, by rw [heq]; rfl, ?_, hhit, hy0, hy1⟩
      intro x hx
      rcases List.mem_cons.mp hx with hx | hx
      · subst hx
        simp [lineHit, hcf]
      · exact hall x hx

/-- C2 (amended): every occurrence selected under a set cursor value `p` -
by the page loop of `get_string_last_char_position_pdf` as well as by the
locate phase of `_replace_once` - has global vertical position
`page_offset + rect.y1` strictly greater than `p`.  With an unset cursor
the page loop returns the first occurrence of the flattened page-order
list; the locate phase selects on the first page that has any search hit,
and within that page takes the first reported rectangle's hit (unioned
with its same-line followers) through the fallback, unless more than one
rectangle is reported and the line disambiguation succeeds, in which case
the first span-aligned line containing the search is selected - which may
lie below an earlier occurrence that is not span-aligned. -/
theorem C2_locator_ordering (doc : Doc) (s : String) (q : ℚ) :
    (∀ y, gslcpGo s (some q) doc.pages 0 = some y → q < y)
    ∧ (∀ pi rect, locateOccurrence doc s (some q) = some (pi, rect) →
        q < pageOffsetAt doc pi + rect.y1)
    ∧ gslcpGo s none doc.pages 0 = (globalHits doc s).head?
    ∧ (∀ pi rect, locateOccurrence doc s none = some (pi, rect) →
        pi < doc.pages.length ∧
        (doc.pages.getD pi default).search s ≠ [] ∧
        ∀ j, j < pi → (doc.pages.getD j default).search s = [])
    ∧ (∀ (offset : ℚ) (r : Rect) (rest : List Rect),
        fallbackSelect none offset (r :: rest) = some (sameHitUnion r rest))
    ∧ (∀ (offset : ℚ) (page : Page) (rect : Rect),
        pageSelect s none offset page = some rect →
        ∃ r rest, page.search s = r :: rest ∧
          ((1 < (r :: rest).length ∧
              findLineMatch s none offset page.lines = some rect)
            ∨ rect = sameHitUnion r rest))
    ∧ (∀ (offset : ℚ) (lines : List Line) (rect : Rect),
        findLineMatch s none offset lines = some rect →
        ∃ l1 line l2, lines = l1 ++ line :: l2
          ∧ (∀ line' ∈ l1, lineHit s line' = false)
          ∧ lineHit s line = true
          ∧ rect.y0 = line.bbox.y0 ∧ rect.y1 = line.bbox.y1) := by
  refine ⟨fun y h => gslcpGo_some_gt s q doc.pages 0 y h, ?_, ?_, ?_,
    fun offset r rest => fallbackSelect_none_head offset r rest,
    fun offset page rect h => pageSelect_none_spec s offset page rect h,
    fun offset lines rect h => findLineMatch_none_first s offset lines rect h⟩
  · intro pi rect h
    obtain ⟨-, -, hsel⟩ :=
      locateGo_spec s (some q) doc doc.pages 0 pi rect (List.drop_zero _) h
    exact pageSelect_some_gt s q _ _ rect hsel
  · exact gslcpGo_none_eq_head s doc.pages 0
  · intro pi rect h
    obtain ⟨-, hlen, hsel⟩ :=
      locateGo_spec s none doc doc.pages 0 pi rect (List.drop_zero _) h
    refine ⟨hlen, ?_, ?_⟩
    · intro hnil
      rw [pageSelect_of_no_hits s none _ _ hnil] at hsel
      exact Option.noConfusion hsel
    · intro j hj
      exact locateGo_none_first s doc doc.pages 0 pi rect (List.drop_zero _) h j
        (Nat.zero_le j) hj

/-- C2 (counterexample): on `doc3` the search primitive reports the two
occurrences of `"ab"` top-to-bottom at global bottoms 10 and 50, yet with
an unset cursor the locate phase of `_replace_once` selects the occurrence
at 50 (the first span-aligned line) instead of the first occurrence at 10,
whose match is not aligned to a span boundary. -/
theorem C2_locator_cex :
    globalHits doc3 "ab" = [10, 50]
    ∧ (globalHits doc3 "ab").head? = some 10
    ∧ locateOccurrence doc3 "ab" none = some (0, ⟨0, 45, 20, 50⟩)
    ∧ pageOffsetAt doc3 0 + (⟨0, 45, 20, 50⟩ : Rect).y1 = 50
    ∧ (10 : ℚ) < 50 := by
  refine ⟨?_, ?_, ?_, ?_, by norm_num⟩ <;>
    norm_num +decide [globalHits, globalHitsFrom, locateOccurrence, locateGo,
      pageSelect, findLineMatch, spanScan, strStartsWith, lineConcat,
      containsSub, containsSubList, posOk, pageOffsetAt, doc3, pageTwoHits,
      lineTop, lineBot]

/-- Witness for C2 on the concrete documents `doc2` and `doc3`. -/
theorem C2_locator_ordering_witness :
    ((30 : ℚ) < 45)
    ∧ ((30 : ℚ) < pageOffsetAt doc2 0 + rect45.y1)
    ∧ gslcpGo "x" none doc2.pages 0 = (globalHits doc2 "x").head?
    ∧ (0 < doc2.pages.length ∧ (doc2.pages.getD 0 default).search "x" ≠ [] ∧
        ∀ j, j < 0 → (doc2.pages.getD j default).search "x" = [])
    ∧ fallbackSelect none 0 (rect45 :: []) = some (sameHitUnion rect45 [])
    ∧ (∃ r rest, pageTwoHits.search "ab" = r :: rest ∧
        ((1 < (r :: rest).length ∧
            findLineMatch "ab" none 0 pageTwoHits.lines =
              some ⟨0, 45, 20, 50⟩)
          ∨ (⟨0, 45, 20, 50⟩ : Rect) = sameHitUnion r rest))
    ∧ (∃ l1 line l2, pageTwoHits.lines = l1 ++ line :: l2
        ∧ (∀ line' ∈ l1, lineHit "ab" line' = false)
        ∧ lineHit "ab" line = true
        ∧ (⟨0, 45, 20, 50⟩ : Rect).y0 = line.bbox.y0
        ∧ (⟨0, 45, 20, 50⟩ : Rect).y1 = line.bbox.y1) := by
  obtain ⟨h1, h2, h3, h4, h5, -, -⟩ := C2_locator_ordering doc2 "x" 30
  obtain ⟨-, -, -, -, -, h6, h7⟩ := C2_locator_ordering doc3 "ab" 30
  refine ⟨h1 45 ?_, h2 0 rect45 ?_, h3, h4 0 rect45 ?_, h5 0 rect45 [],
    h6 0 pageTwoHits ⟨0, 45, 20, 50⟩ ?_,
    h7 0 pageTwoHits.lines ⟨0, 45, 20, 50⟩ ?_⟩
  · norm_num [gslcpGo, doc2, hitPage, posOk, rect45, List.find?_cons]
  · norm_num [locateOccurrence, locateGo, pageSelect, fallbackSelect,
      sameHitUnion, sameHitFollowers, posOk, doc2, hitPage, rect45]
  · norm_num [locateOccurrence, locateGo, pageSelect, fallbackSelect,
      sameHitUnion, sameHitFollowers, posOk, doc2, hitPage, rect45]
  · norm_num +decide [pageSelect, findLineMatch, spanScan, strStartsWith,
      lineConcat, containsSub, containsSubList, posOk, pageTwoHits, lineTop,
      lineBot]
  · norm_num +decide [findLineMatch, spanScan, strStartsWith, lineConcat,
      containsSub, containsSubList, posOk, pageTwoHits, lineTop, lineBot]

/-- Strict advance of the locate phase beyond a set cursor. -/
theorem locateOccurrence_some_gt (doc : Doc) (s : String) (q : ℚ) (pi : ℕ)
    (rect : Rect) (h : locateOccurrence doc s (some q) = some (pi, rect)) :
    q < pageOffsetAt doc pi + rect.y1 := by
  obtain ⟨-, -, hsel⟩ :=
    locateGo_spec s (some q) doc doc.pages 0 pi rect (List.drop_zero _) h
  exact pageSelect_some_gt s q _ _ rect hsel

/-- Cursor returned by `_replace_once`: unchanged on `NotFound`, otherwise
the selected occurrence's global bottom coordinate (whether or not any
glyphs intersected the rectangle). -/
theorem replace_once_newPos (doc : Doc) (s r : String) (lastPos : Option ℚ) :
    (replace_once doc s r lastPos).newPos =
      match locateOccurrence doc s lastPos with
      | none => lastPos
      | some (pi, rect) => some (pageOffsetAt doc pi + rect.y1) := by
  cases hl : locateOccurrence doc s lastPos with
  | none => simp [replace_once, hl]
  | some pir =>
    obtain ⟨pi, rect⟩ := pir
    simp only [replace_once, hl, pageOffsetAt]
    split <;> rfl

/-! ### Driver-level lemmas and claims -/

/-- For a non-empty search string the public locator is its page loop: the
driver's locate-only branch, guarded by a non-empty search line, observes
exactly the page loop's result. -/
theorem get_string_nonempty (doc : Doc) (s : String) (pos : Option ℚ)
    (hs : s ≠ "") :
    get_string_last_char_position_pdf doc s pos =
      Except.ok (gslcpGo s pos doc.pages 0) := by
  simp [get_string_last_char_position_pdf, hs]

/-- Witness for the locator correspondence at a concrete search. -/
theorem get_string_nonempty_example :
    get_string_last_char_position_pdf doc2 "x" none =
      Except.ok (gslcpGo "x" none doc2.pages 0) :=
  get_string_nonempty doc2 "x" none (by decide)

/-- The driver loop splits over list concatenation. -/
theorem runPairs_append (doc : Doc) :
    ∀ (l1 l2 : List (String × String)) (st : DriverState),
      runPairs doc (l1 ++ l2) st = runPairs doc l2 (runPairs doc l1 st) := by
  intro l1
  induction l1 with
  | nil => intro l2 st; rfl
  | cons pr rest ih =>
    intro l2 st
    rw [List.cons_append, runPairs, runPairs, ih]

/-- One driver iteration either leaves the cursor unchanged or advances it
strictly - except exactly for a locate-only pair (non-empty search equal to
its replacement) whose search string has no occurrence satisfying the
position criterion: then the cursor is reset to unset. -/
theorem driverStep_cursor_cases (doc : Doc) (st : DriverState)
    (pr : String × String) :
    cursorAdvanced st.lastPosition (driverStep doc st pr).lastPosition
    ∨ (pr.1 ≠ "" ∧ pr.1 = pr.2
        ∧ gslcpGo pr.1 st.lastPosition doc.pages 0 = none
        ∧ (driverStep doc st pr).lastPosition = none) := by
  obtain ⟨s, r⟩ := pr
  by_cases h0 : s = ""
  · left
    left
    simp [driverStep, h0]
  by_cases h1 : s = r
  · subst h1
    have hstep : (driverStep doc st (s, s)).lastPosition =
        gslcpGo s st.lastPosition doc.pages 0 := by
      simp [driverStep, h0]
    cases hg : gslcpGo s st.lastPosition doc.pages 0 with
    | none =>
      right
      exact ⟨h0, rfl, rfl, by rw [hstep]; exact hg⟩
    | some y =>
      left
      right
      rw [hstep, hg]
      cases hlp : st.lastPosition with
      | none => rfl
      | some q =>
        have hq : q < y := gslcpGo_some_gt s q doc.pages 0 y (hlp ▸ hg)
        simpa [optLt] using hq
  · left
    have hstep : (driverStep doc st (s, r)).lastPosition =
        (replace_once doc s r st.lastPosition).newPos := by
      simp [driverStep, h0, h1]
    rw [hstep, replace_once_newPos]
    cases hl : locateOccurrence doc s st.lastPosition with
    | none => left; rfl
    | some pir =>
      obtain ⟨pi, rect⟩ := pir
      right
      cases hlp : st.lastPosition with
      | none => rfl
      | some q =>
        have hq : q < pageOffsetAt doc pi + rect.y1 :=
          locateOccurrence_some_gt doc s q pi rect (hlp ▸ hl)
        simpa [optLt] using hq

/-- C1 (amended): in every batch, after processing the pair at any position
(from the driver state reached by the preceding pairs of the batch) the
cursor is unchanged or strictly greater than its value before that pair,
except exactly for a locate-only pair - a non-empty search line equal to
its replacement - whose search string has no occurrence satisfying the
position criterion: only in that case is the cursor reset to unset. -/
theorem C1_cursor_monotone_amended (doc : Doc) (st : DriverState)
    (pre : List (String × String)) (pr : String × String) :
    (cursorAdvanced (runPairs doc pre st).lastPosition
        (driverStep doc (runPairs doc pre st) pr).lastPosition
      ∨ (pr.1 ≠ "" ∧ pr.1 = pr.2
          ∧ gslcpGo pr.1 (runPairs doc pre st).lastPosition doc.pages 0 = none
          ∧ (driverStep doc (runPairs doc pre st) pr).lastPosition = none))
    ∧ ∀ rest, runPairs doc (pre ++ pr :: rest) st =
        runPairs doc rest (driverStep doc (runPairs doc pre st) pr) := by
  refine ⟨driverStep_cursor_cases doc (runPairs doc pre st) pr, fun rest => ?_⟩
  rw [runPairs_append doc pre (pr :: rest) st]
  rfl

/-- C1 (counterexample): a batch containing the pairs `("x","y")` then
`("x","x")` on a document without any `"x"`, started at cursor `5`, drives
the cursor from `some 5` to `none` at the locate-only pair: the trace is
not a chain of unchanged-or-strictly-greater steps. -/
theorem C1_cursor_monotone_cex :
    ¬ List.Chain' cursorAdvanced
        (cursorTrace doc0 (driverPairs ["x", "x"] ["y", "x"]) (initState (some 5))) := by
  have ht : cursorTrace doc0 (driverPairs ["x", "x"] ["y", "x"]) (initState (some 5)) =
      [some 5, some 5, none] := by
    norm_num +decide [cursorTrace, driverPairs, driverStep, initState, replace_once,
      locateOccurrence, locateGo, pageSelect, gslcpGo, doc0, emptyPage]
  rw [ht]
  intro hch
  have h2 := (List.chain'_cons.mp (List.chain'_cons.mp hch).2).1
  rcases h2 with h | h
  · exact Option.noConfusion h
  · simp [optLt] at h

/-- C3 (counterexample): for the locate-only pair `("x","x")` on a document
without any `"x"` and cursor `some 5`, the locator reports no occurrence,
yet the driver changes the cursor (to `none`) and logs nothing. -/
theorem C3_notfound_cex :
    gslcpGo "x" (some 5) doc0.pages 0 = none
    ∧ (driverStep doc0 (initState (some 5)) ("x", "x")).lastPosition = none
    ∧ (initState (some 5)).lastPosition = some 5
    ∧ (driverStep doc0 (initState (some 5)) ("x", "x")).events = [] := by
  refine ⟨?_, ?_, rfl, ?_⟩ <;>
    norm_num +decide [gslcpGo, driverStep, initState, doc0, emptyPage]

/-- C3 (amended): when the locator finds nothing for a pair the driver does
not modify the document and continues with the remaining pairs; for a real
replacement pair (search ≠ replacement) it additionally logs a debug
message and leaves the cursor unchanged, while for a locate-only pair
(search == replacement) it logs nothing and resets the cursor to unset. -/
theorem C3_notfound_amended (doc : Doc) (st : DriverState) (s r : String)
    (hs : s ≠ "") :
    (s ≠ r → locateOccurrence doc s st.lastPosition = none →
      driverStep doc st (s, r) =
        { st with events := st.events ++ [Ev.debugNotFound s] })
    ∧ (s = r → gslcpGo s st.lastPosition doc.pages 0 = none →
      driverStep doc st (s, r) = { st with lastPosition := none })
    ∧ (∀ rest, runPairs doc ((s, r) :: rest) st =
        runPairs doc rest (driverStep doc st (s, r))) := by
  refine ⟨fun hne hloc => ?_, fun heq hg => ?_, fun rest => rfl⟩
  · simp [driverStep, hs, hne, replace_once, hloc]
  · subst heq
    simp [driverStep, hs, hg]

/-- Witness for C3 (amended) on the empty document. -/
theorem C3_notfound_amended_witness :
    driverStep doc0 (initState (some 5)) ("x", "y") =
      { initState (some 5) with events := [Ev.debugNotFound "x"] }
    ∧ driverStep doc0 (initState (some 5)) ("x", "x") =
      { initState (some 5) with lastPosition := none } := by
  constructor
  · have h := (C3_notfound_amended doc0 (initState (some 5)) "x" "y"
      (by decide)).1 (by decide) (by
        norm_num +decide [locateOccurrence, locateGo, pageSelect, doc0, emptyPage])
    simpa [initState] using h
  · have h := (C3_notfound_amended doc0 (initState (some 5)) "x" "x"
      (by decide)).2.1 rfl (by
        norm_num +decide [gslcpGo, doc0, emptyPage])
    simpa [initState] using h

/-- C4 (counterexample): on `doc2` the string `"x"` is located at `rect45`
but no glyph intersects it; `_replace_once` performs no redaction and draws
nothing, but it emits no log at all and moves the cursor (from unset to
`some 45`) instead of leaving it unchanged. -/
theorem C4_no_glyphs_cex :
    locateOccurrence doc2 "x" none = some (0, rect45)
    ∧ (replace_once doc2 "x" "y" none).edits = []
    ∧ (replace_once doc2 "x" "y" none).events = []
    ∧ (replace_once doc2 "x" "y" none).newPos = some 45 := by
  refine ⟨?_, ?_, ?_, ?_⟩ <;>
    norm_num +decide [replace_once, locateOccurrence, locateGo, pageSelect,
      fallbackSelect, sameHitUnion, sameHitFollowers, posOk, doc2, hitPage, rect45]

/-- C4 (amended): when an occurrence is located but no extracted glyph
intersects its rectangle, `_replace_once` performs no redaction, draws no
text and emits no log, and returns the cursor advanced to the located
occurrence's global bottom `page_offset + rect.y1`. -/
theorem C4_no_glyphs_amended (doc : Doc) (s r : String) (lastPos : Option ℚ)
    (pi : ℕ) (rect : Rect)
    (hloc : locateOccurrence doc s lastPos = some (pi, rect))
    (hg : (doc.pages.getD pi default).glyphs.filter
        (fun g => rect.intersects g.bbox) = []) :
    replace_once doc s r lastPos =
      { newPos := some (pageOffsetAt doc pi + rect.y1), edits := [],
        events := [] } := by
  simp only [replace_once, hloc]
  rw [hg]
  simp [pageOffsetAt]

/-- Witness for C4 (amended) on `doc2`. -/
theorem C4_no_glyphs_amended_witness :
    replace_once doc2 "x" "y" none =
      { newPos := some (pageOffsetAt doc2 0 + rect45.y1), edits := [],
        events := [] } := by
  apply C4_no_glyphs_amended doc2 "x" "y" none 0 rect45
  · norm_num +decide [locateOccurrence, locateGo, pageSelect, fallbackSelect,
      sameHitUnion, sameHitFollowers, posOk, doc2, hitPage, rect45]
  · norm_num [doc2, hitPage]

/-- C6 (counterexample): a whitespace-only search string is not rejected:
`get_string_last_char_position_pdf` proceeds to search (returning `NotFound`
rather than raising), and `replace_text_preserve_layout_pdf` runs its batch
normally on a whitespace-only pair. -/
theorem C6_whitespace_cex :
    get_string_last_char_position_pdf doc0 " " none = Except.ok none
    ∧ replace_text_preserve_layout_pdf doc0 [" "] ["y"] none =
        Except.ok ⟨none, [], [Ev.debugNotFound " "]⟩ := by
  constructor <;>
    norm_num +decide [get_string_last_char_position_pdf, gslcpGo, doc0, emptyPage,
      replace_text_preserve_layout_pdf, driverPairs, runPairs, driverStep,
      initState, replace_once, locateOccurrence, locateGo, pageSelect]

/-- C6 (amended): `get_string_last_char_position_pdf` raises an
input-validation error exactly for the zero-length search string (before any
search), and `replace_text_preserve_layout_pdf` raises exactly for an empty
(falsy) line list or mismatched line counts (before any document mutation);
whitespace-only search strings are accepted by both. -/
theorem C6_empty_validation (doc : Doc) (s : String) (pos : Option ℚ)
    (s1 s2 : List String) :
    (get_string_last_char_position_pdf doc s pos = Except.error Err.emptySearch ↔
      s = "")
    ∧ (s1.isEmpty = true →
        replace_text_preserve_layout_pdf doc s1 s2 pos = Except.error Err.emptySearch)
    ∧ (s1.isEmpty = false → s1.length ≠ s2.length →
        replace_text_preserve_layout_pdf doc s1 s2 pos = Except.error Err.lengthMismatch)
    ∧ (s1.isEmpty = false → s1.length = s2.length →
        replace_text_preserve_layout_pdf doc s1 s2 pos =
          Except.ok (runPairs doc (driverPairs s1 s2) (initState pos))) := by
  refine ⟨?_, ?_, ?_, ?_⟩
  · by_cases h : s = "" <;> simp [get_string_last_char_position_pdf, h]
  · intro h
    simp [replace_text_preserve_layout_pdf, h]
  · intro h1 h2
    simp [replace_text_preserve_layout_pdf, h1, h2]
  · intro h1 h2
    simp [replace_text_preserve_layout_pdf, h1, h2]

/-- Witness for C6 (amended) at concrete inputs. -/
theorem C6_empty_validation_witness :
    get_string_last_char_position_pdf doc0 "" none = Except.error Err.emptySearch
    ∧ replace_text_preserve_layout_pdf doc0 [] [] none = Except.error Err.emptySearch
    ∧ replace_text_preserve_layout_pdf doc0 ["x"] [] none =
        Except.error Err.lengthMismatch
    ∧ replace_text_preserve_layout_pdf doc0 [" "] ["y"] none =
        Except.ok (runPairs doc0 (driverPairs [" "] ["y"]) (initState none)) :=
  ⟨(C6_empty_validation doc0 "" none [] []).1.mpr rfl,
   (C6_empty_validation doc0 "" none [] []).2.1 rfl,
   (C6_empty_validation doc0 "" none ["x"] []).2.2.1 (by decide) (by decide),
   (C6_empty_validation doc0 "" none [" "] ["y"]).2.2.2 (by decide) (by decide)⟩

/-- A pair with an empty search line is skipped by the driver loop. -/
theorem driverStep_empty_search (doc : Doc) (st : DriverState)
    (pr : String × String) (h : pr.1 = "") : driverStep doc st pr = st := by
  simp [driverStep, h]

/-- The driver loop ignores pairs with empty search lines. -/
theorem runPairs_drop_empty (doc : Doc) :
    ∀ (l : List (String × String)) (st : DriverState),
      runPairs doc l st = runPairs doc (l.filter (fun pr => pr.1 != "")) st := by
  intro l
  induction l with
  | nil => intro st; rfl
  | cons pr rest ih =>
    intro st
    by_cases h : pr.1 = ""
    · rw [runPairs, driverStep_empty_search doc st pr h, ih st]
      have hf : (pr :: rest).filter (fun pr => pr.1 != "") =
          rest.filter (fun pr => pr.1 != "") := by
        simp [List.filter_cons, h]
      rw [hf]
    · have hf : (pr :: rest).filter (fun pr => pr.1 != "") =
          pr :: rest.filter (fun pr => pr.1 != "") := by
        simp [List.filter_cons, h]
      rw [runPairs, ih (driverStep doc st pr), hf, runPairs]

/-- Two successive filters of a list commute. -/
theorem filter_swap {α : Type} (p q : α → Bool) (l : List α) :
    (l.filter p).filter q = (l.filter q).filter p := by
  induction l with
  | nil => rfl
  | cons a t ih =>
    by_cases hp : p a = true <;> by_cases hq : q a = true <;>
      simp [List.filter_cons, hp, hq, ih]

/-- The source's pair filter composed with the loop's empty-search skip is
the specification's filter. -/
theorem driverPairs_filter_eq (s1 s2 : List String) :
    (driverPairs s1 s2).filter (fun pr => pr.1 != "") = specFilter (s1.zip s2) := by
  rw [driverPairs, specFilter]
  exact filter_swap _ _ _

/-- C7: under valid inputs, the driver processes exactly the pairs retained
by the specification's filter (drop empty-search pairs, keep pairs whose
search string has some differing pair in the list), in their original
order; all other pairs have no effect on the document or the cursor. -/
theorem C7_driver_filter (doc : Doc) (s1 s2 : List String) (pos : Option ℚ)
    (h1 : s1.isEmpty = false) (h2 : s1.length = s2.length) :
    replace_text_preserve_layout_pdf doc s1 s2 pos =
      Except.ok (runPairs doc (specFilter (s1.zip s2)) (initState pos)) := by
  rw [replace_text_preserve_layout_pdf, if_neg (by simp [h1]),
    if_neg (not_not_intro h2), runPairs_drop_empty doc (driverPairs s1 s2),
    driverPairs_filter_eq]

/-- Witness for C7 on a concrete pair list containing an empty-search pair,
an unchanged pair with a differing twin, and a repeated-only pair. -/
theorem C7_driver_filter_witness :
    replace_text_preserve_layout_pdf doc0 ["", "a", "b", "a"] ["x", "a", "c", "z"]
        none =
      Except.ok (runPairs doc0
        (specFilter (["", "a", "b", "a"].zip ["x", "a", "c", "z"]))
        (initState none)) :=
  C7_driver_filter doc0 ["", "a", "b", "a"] ["x", "a", "c", "z"] none
    (by decide) (by decide)

/-! ### Lemmas about the font resolver -/

/-- Resolution either returns a cached handle unchanged or pushes the
resolved handle for the requested name onto the cache. -/
theorem get_font_cache_or_push (env : FontEnv) (cache : List (String × Font))
    (name : String) :
    (∃ f, cache.lookup name = some f ∧ get_font env cache name = (f, cache)) ∨
    (∃ f, cache.lookup name = none ∧
      get_font env cache name = (f, (name, f) :: cache)) := by
  cases hc : cache.lookup name with
  | some f => exact Or.inl ⟨f, rfl, by simp [get_font, hc]⟩
  | none =>
    right
    cases hm : env.mkFont name with
    | some f => exact ⟨f, rfl, by simp [get_font, hc, hm]⟩
    | none =>
      cases hfm : fontMapLookup env name.toLower pymupdfFontMap with
      | some f => exact ⟨f, rfl, by simp [get_font, hc, hm, hfm]⟩
      | none =>
        cases hff : (env.getAvailableFont name).2.bind env.mkFontFile with
        | some f => exact ⟨f, rfl, by simp [get_font, hc, hm, hfm, hff]⟩
        | none =>
          cases hfam : familyFallback env (env.getAvailableFont name).1 with
          | some f => exact ⟨f, rfl, by simp [get_font, hc, hm, hfm, hff, hfam]⟩
          | none =>
            cases hres : env.mkFont (env.getAvailableFont name).1 with
            | some f =>
              exact ⟨f, rfl, by simp [get_font, hc, hm, hfm, hff, hfam, hres]⟩
            | none =>
              exact ⟨env.helv, rfl,
                by simp [get_font, hc, hm, hfm, hff, hfam, hres]⟩

/-- C5: font resolution always returns a handle and is memoized: the
resolved handle is recorded in the per-invocation cache under the requested
name, and a second resolution of the same name returns the cached handle
without touching the cache; the degradation ladder is respected: a cached
name short-circuits, else the exact name is tried first, else the
case-insensitive family table, else the external helper's font file, else
the family of the helper's resolved name, else the resolved name itself,
and when everything fails the guaranteed built-in is returned - no failure
of any primitive can make resolution fail. -/
theorem C5_font_resolution (env : FontEnv) (cache : List (String × Font))
    (name : String) :
    ((get_font env cache name).2.lookup name = some (get_font env cache name).1
      ∧ get_font env (get_font env cache name).2 name = get_font env cache name)
    ∧ (∀ f, cache.lookup name = some f → get_font env cache name = (f, cache))
    ∧ (∀ f, cache.lookup name = none → env.mkFont name = some f →
        get_font env cache name = (f, (name, f) :: cache))
    ∧ (∀ f, cache.lookup name = none → env.mkFont name = none →
        fontMapLookup env name.toLower pymupdfFontMap = some f →
        get_font env cache name = (f, (name, f) :: cache))
    ∧ (cache.lookup name = none → env.mkFont name = none →
        fontMapLookup env name.toLower pymupdfFontMap = none →
        (env.getAvailableFont name).2.bind env.mkFontFile = none →
        familyFallback env (env.getAvailableFont name).1 = none →
        env.mkFont (env.getAvailableFont name).1 = none →
        get_font env cache name = (env.helv, (name, env.helv) :: cache)) := by
  refine ⟨?_, ?_, ?_, ?_, ?_⟩
  · rcases get_font_cache_or_push env cache name with ⟨f, hc, he⟩ | ⟨f, hc, he⟩
    · rw [he]
      exact ⟨hc, by simp [get_font, hc]⟩
    · rw [he]
      refine ⟨by simp [List.lookup], ?_⟩
      simp [get_font, List.lookup]
  · intro f hc
    simp [get_font, hc]
  · intro f hc hm
    simp [get_font, hc, hm]
  · intro f hc hm hfm
    simp [get_font, hc, hm, hfm]
  · intro hc hm hfm hff hfam hres
    simp [get_font, hc, hm, hfm, hff, hfam, hres]

/-- In an environment whose font constructor always fails, the family table
yields nothing. -/
theorem fontMapLookup_none_of_fail (env : FontEnv)
    (hf : ∀ b, env.mkFont b = none) (s : String) :
    ∀ l, fontMapLookup env s l = none := by
  intro l
  induction l with
  | nil => rfl
  | cons p rest ih =>
    obtain ⟨fam, bi⟩ := p
    by_cases hp : strStartsWith s fam = true <;> simp [fontMapLookup, hp, hf, ih]

/-- In an environment whose font constructor always fails, the family
fallback after the external helper yields nothing. -/
theorem familyFallback_none_of_fail (env : FontEnv)
    (hf : ∀ b, env.mkFont b = none) (r : String) :
    familyFallback env r = none := by
  rw [familyFallback]
  by_cases h1 : containsSub "times" r.toLower = true
  · simp [h1, hf]
  · by_cases h2 : (containsSub "arial" r.toLower ||
        containsSub "helvetica" r.toLower) = true <;> simp [h1, h2, hf]

/-- Witness for C5 in the all-failing environment: an unknown font name
resolves to the guaranteed built-in and is memoized. -/
theorem C5_font_resolution_witness :
    get_font fontEnvFail [] "UnknownFont-123" =
      (fontEnvFail.helv, [("UnknownFont-123", fontEnvFail.helv)])
    ∧ (get_font fontEnvFail [] "UnknownFont-123").2.lookup "UnknownFont-123" =
        some (get_font fontEnvFail [] "UnknownFont-123").1 := by
  obtain ⟨hmemo, -, -, -, hfall⟩ :=
    C5_font_resolution fontEnvFail [] "UnknownFont-123"
  exact ⟨hfall rfl rfl
      (fontMapLookup_none_of_fail fontEnvFail (fun _ => rfl) _ _) rfl
      (familyFallback_none_of_fail fontEnvFail (fun _ => rfl) _) rfl,
    hmemo.1⟩

/-! ### Lemmas about the baseline computation -/

/-- A left `max`-fold lands on its seed or an element. -/
theorem foldl_max_mem (xs : List ℚ) : ∀ x : ℚ, xs.foldl max x ∈ x :: xs := by
  induction xs with
  | nil => intro x; simp
  | cons a t ih =>
    intro x
    show t.foldl max (max x a) ∈ x :: a :: t
    have h := ih (max x a)
    rcases List.mem_cons.mp h with h | h
    · rw [h]
      rcases max_choice x a with hm | hm <;> rw [hm] <;> simp
    · exact List.mem_cons.mpr (Or.inr (List.mem_cons.mpr (Or.inr h)))

/-- A left `max`-fold bounds its seed and every element. -/
theorem foldl_max_le (xs : List ℚ) :
    ∀ x y : ℚ, y ∈ x :: xs → y ≤ xs.foldl max x := by
  induction xs with
  | nil =>
    intro x y hy
    simp at hy
    simp [hy]
  | cons a t ih =>
    intro x y hy
    rcases List.mem_cons.mp hy with hy | hy
    · subst hy
      exact le_trans (le_max_left y a) (ih (max y a) _ (List.mem_cons_self _ _))
    · rcases List.mem_cons.mp hy with hy | hy
      · subst hy
        exact le_trans (le_max_right x y) (ih (max x y) _ (List.mem_cons_self _ _))
      · exact ih (max x a) y (List.mem_cons.mpr (Or.inr hy))

/-- A left `min`-fold lands on its seed or an element. -/
theorem foldl_min_mem (xs : List ℚ) : ∀ x : ℚ, xs.foldl min x ∈ x :: xs := by
  induction xs with
  | nil => intro x; simp
  | cons a t ih =>
    intro x
    show t.foldl min (min x a) ∈ x :: a :: t
    have h := ih (min x a)
    rcases List.mem_cons.mp h with h | h
    · rw [h]
      rcases min_choice x a with hm | hm <;> rw [hm] <;> simp
    · exact List.mem_cons.mpr (Or.inr (List.mem_cons.mpr (Or.inr h)))

/-- A left `min`-fold is below its seed and every element. -/
theorem foldl_min_le (xs : List ℚ) :
    ∀ x y : ℚ, y ∈ x :: xs → xs.foldl min x ≤ y := by
  induction xs with
  | nil =>
    intro x y hy
    simp at hy
    simp [hy]
  | cons a t ih =>
    intro x y hy
    rcases List.mem_cons.mp hy with hy | hy
    · subst hy
      exact le_trans (ih (min y a) _ (List.mem_cons_self _ _)) (min_le_left y a)
    · rcases List.mem_cons.mp hy with hy | hy
      · subst hy
        exact le_trans (ih (min x y) _ (List.mem_cons_self _ _)) (min_le_right x y)
      · exact ih (min x a) y (List.mem_cons.mpr (Or.inr hy))

/-- On a non-empty list, `maxQ` is an element. -/
theorem maxQ_mem (l : List ℚ) (h : l ≠ []) : maxQ l ∈ l := by
  cases l with
  | nil => exact absurd rfl h
  | cons x xs => exact foldl_max_mem xs x

/-- Value `maxQ` bounds every element. -/
theorem maxQ_ge (l : List ℚ) (y : ℚ) (hy : y ∈ l) : y ≤ maxQ l := by
  cases l with
  | nil => simp at hy
  | cons x xs => exact foldl_max_le xs x y hy

/-- On a non-empty list, `minQ` is an element. -/
theorem minQ_mem (l : List ℚ) (h : l ≠ []) : minQ l ∈ l := by
  cases l with
  | nil => exact absurd rfl h
  | cons x xs => exact foldl_min_mem xs x

/-- Value `minQ` is below every element. -/
theorem minQ_le (l : List ℚ) (y : ℚ) (hy : y ∈ l) : minQ l ≤ y := by
  cases l with
  | nil => simp at hy
  | cons x xs => exact foldl_min_le xs x y hy

/-- The baseline glyph selection of a non-empty glyph list is non-empty. -/
theorem baselineGlyphsOf_ne (tg : List Glyph) (h : tg ≠ []) :
    baselineGlyphsOf tg ≠ [] := by
  rw [baselineGlyphsOf]
  by_cases he : (textGlyphsOf tg).isEmpty = true
  · simpa [he] using h
  · have hne : textGlyphsOf tg ≠ [] := by
      intro hc
      exact he (by rw [hc]; rfl)
    simpa [he] using hne

/-- C8: for non-empty target glyphs the drawing baseline is the maximum
bottom coordinate of the selected glyphs (text glyphs when any exist, else
all target glyphs), shifted upward by `min(excess * K, fontsize * cap)` with
`excess = max 0 (max(bottom) - min(top) - fontsize)`, where the pair
`(K, cap)` is `(0.5, 0.1)` when checkbox glyphs are mixed with text glyphs
and `(1.8, 0.2)` otherwise - the mixed pair strictly smaller in both
components. -/
theorem C8_baseline (tg : List Glyph) (h : tg ≠ []) :
    (maxQ ((baselineGlyphsOf tg).map (fun g => g.bbox.y1)) ∈
        (baselineGlyphsOf tg).map (fun g => g.bbox.y1)
      ∧ ∀ b ∈ (baselineGlyphsOf tg).map (fun g => g.bbox.y1),
          b ≤ maxQ ((baselineGlyphsOf tg).map (fun g => g.bbox.y1)))
    ∧ (minQ ((baselineGlyphsOf tg).map (fun g => g.bbox.y0)) ∈
        (baselineGlyphsOf tg).map (fun g => g.bbox.y0)
      ∧ ∀ t ∈ (baselineGlyphsOf tg).map (fun g => g.bbox.y0),
          minQ ((baselineGlyphsOf tg).map (fun g => g.bbox.y0)) ≤ t)
    ∧ computeBaseline tg =
        maxQ ((baselineGlyphsOf tg).map (fun g => g.bbox.y1)) -
          min ((max 0 (maxQ ((baselineGlyphsOf tg).map (fun g => g.bbox.y1)) -
              minQ ((baselineGlyphsOf tg).map (fun g => g.bbox.y0)) -
              ((baselineGlyphsOf tg).headD default).size)) *
            (if mixedRun tg then (1 : ℚ) / 2 else 9 / 5))
            (((baselineGlyphsOf tg).headD default).size *
              (if mixedRun tg then (1 : ℚ) / 10 else 1 / 5))
    ∧ ((1 : ℚ) / 2 < 9 / 5 ∧ (1 : ℚ) / 10 < 1 / 5) := by
  have hne := baselineGlyphsOf_ne tg h
  have hmapne : (baselineGlyphsOf tg).map (fun g => g.bbox.y1) ≠ [] := by
    simpa using hne
  have hmapne' : (baselineGlyphsOf tg).map (fun g => g.bbox.y0) ≠ [] := by
    simpa using hne
  refine ⟨⟨maxQ_mem _ hmapne, fun b hb => maxQ_ge _ b hb⟩,
    ⟨minQ_mem _ hmapne', fun t ht => minQ_le _ t ht⟩, ?_, by norm_num⟩
  rw [computeBaseline]
  by_cases hm : mixedRun tg = true <;> simp [hm]

/-- Witness for C8 on the single text glyph `glyphA`. -/
theorem C8_baseline_witness : computeBaseline [glyphA] = 20 := by
  have h := (C8_baseline [glyphA] (by decide)).2.2.1
  rw [h]
  norm_num +decide [baselineGlyphsOf, textGlyphsOf, checkboxGlyphsOf, mixedRun,
    glyphA, maxQ, minQ, checkboxChars]
